import Mathlib

/-!
Verification of the mcp-shell bridge core (daemon proxy, socket readiness
validator, proxy transport bridge, daemon socket listener) against its
natural-language specification.  The definitions below are a shallow
embedding of the TypeScript source: byte streams are `List Nat` (byte
values), `Buffer | undefined` is `Option (List Nat)`, asynchronous time is
an explicit `now : Nat` in milliseconds, and external effects (fs.stat,
transport.start, the server manager) are oracles passed as functions.
-/

namespace McpShell

/-- The newline byte, `'\n'`. -/
def NLB : Nat := 10

/-- The carriage-return byte, `'\r'`. -/
def CRB : Nat := 13

/-- Index of the first newline byte in a byte list; embeds
`Buffer.indexOf('\n')` with the `-1` sentinel rendered as `none`. -/
def firstNL : List Nat → Option Nat
  | [] => none
  | b :: bs => if b = NLB then some 0 else (firstNL bs).map (· + 1)

/-- Strip one optional trailing carriage return from a byte list; embeds
`.replace(/\r$/, '')` applied to the decoded line. -/
def stripCR (l : List Nat) : List Nat :=
  if l.getLast? = some CRB then l.dropLast else l

/-- Outcome of one `readMessage` call: `nothing` embeds the `null` return
(no complete line buffered), `msg` a successfully parsed message, and
`parseError` the exception thrown when parsing the complete line fails. -/
inductive ReadOutcome (Msg : Type) where
  | nothing : ReadOutcome Msg
  | msg (m : Msg) : ReadOutcome Msg
  | parseError : ReadOutcome Msg
deriving DecidableEq

/-- The framing buffer of `daemon-proxy.ts`: `private buffer: Buffer | undefined`. -/
structure ReadBuffer where
  buffer : Option (List Nat)
deriving DecidableEq

/-- A freshly constructed `ReadBuffer` (`buffer` starts `undefined`). -/
def ReadBuffer.empty : ReadBuffer := ⟨none⟩

/-- `append(chunk)`: `this.buffer = this.buffer ? Buffer.concat([this.buffer, chunk]) : chunk`. -/
def ReadBuffer.append (rb : ReadBuffer) (chunk : List Nat) : ReadBuffer :=
  match rb.buffer with
  | some b => ⟨some (b ++ chunk)⟩
  | none => ⟨some chunk⟩

/-- `readMessage()`: returns `null` when no buffer or no newline; otherwise
takes the bytes up to the first newline, strips one optional trailing
`\r`, advances the buffer past the newline, and parses the line.  The
parse step (`JSONRPCMessageSchema.parse(JSON.parse(line))`) is abstracted
as the `parse` oracle; `parse line = none` embeds a thrown parse error.
Note the buffer is advanced before the parse is attempted, exactly as in
the source (line reassignment precedes the `parse` call). -/
def ReadBuffer.readMessage {Msg : Type} (rb : ReadBuffer)
    (parse : List Nat → Option Msg) : ReadOutcome Msg × ReadBuffer :=
  match rb.buffer with
  | none => (ReadOutcome.nothing, rb)
  | some b =>
    match firstNL b with
    | none => (ReadOutcome.nothing, rb)
    | some i =>
      let line := stripCR (b.take i)
      let rest := b.drop (i + 1)
      match parse line with
      | some m => (ReadOutcome.msg m, ⟨some rest⟩)
      | none => (ReadOutcome.parseError, ⟨some rest⟩)

/-- `clear()`: `this.buffer = undefined`. -/
def ReadBuffer.clear (_ : ReadBuffer) : ReadBuffer := ⟨none⟩

/-- The byte content of a `ReadBuffer` (`undefined` reads as empty). -/
def ReadBuffer.bytes (rb : ReadBuffer) : List Nat := rb.buffer.getD []

/-! ### Repeated reading

`drainWith` iterates `readMessage` until it reports that no complete line
is buffered, collecting the successfully parsed messages in order and
skipping lines whose parse fails.  The fuel argument only serves
termination; `rb.bytes.length` is always enough, because every
`msg`/`parseError` step consumes at least the newline byte. -/
def drainWith {Msg : Type} (parse : List Nat → Option Msg) :
    Nat → ReadBuffer → List Msg × ReadBuffer
  | 0, rb => ([], rb)
  | fuel + 1, rb =>
    match rb.readMessage parse with
    | (ReadOutcome.nothing, _) => ([], rb)
    | (ReadOutcome.msg m, rb') =>
      let p := drainWith parse fuel rb'
      (m :: p.1, p.2)
    | (ReadOutcome.parseError, rb') => drainWith parse fuel rb'

/-- Drain a buffer completely: repeatedly call `readMessage`, in arrival
order, until no complete line remains. -/
def ReadBuffer.drain {Msg : Type} (rb : ReadBuffer)
    (parse : List Nat → Option Msg) : List Msg × ReadBuffer :=
  drainWith parse rb.bytes.length rb

/-- Specification-level splitting of a raw byte list into the parsed
messages of its complete newline-delimited records plus the leftover bytes
after the last newline. -/
def splitMsgs {Msg : Type} (parse : List Nat → Option Msg) (l : List Nat) :
    List Msg × List Nat :=
  match h : firstNL l with
  | none => ([], l)
  | some i =>
    let p := splitMsgs parse (l.drop (i + 1))
    match parse (stripCR (l.take i)) with
    | some m => (m :: p.1, p.2)
    | none => p
termination_by l.length
decreasing_by
  have key : ∀ (ll : List Nat) (j : Nat), firstNL ll = some j → j < ll.length := by
    intro ll
    induction ll with
    | nil => intro j hj; simp [firstNL] at hj
    | cons b bs ih =>
      intro j hj
      by_cases hb : b = NLB
      · subst hb; simp [firstNL] at hj; subst hj; simp
      · simp [firstNL, hb] at hj
        obtain ⟨k, hk, rfl⟩ := hj
        have := ih k hk
        simp
        omega
  have := key l i h
  simp
  omega

/-- The inbound processing harness: feed each chunk to the buffer and
drain all complete records after each append, accumulating the parsed
messages in order. -/
def processChunks {Msg : Type} (parse : List Nat → Option Msg)
    (chunks : List (List Nat)) : List Msg × ReadBuffer :=
  chunks.foldl
    (fun acc c =>
      let p := (acc.2.append c).drain parse
      (acc.1 ++ p.1, p.2))
    ([], ReadBuffer.empty)

/-- Specification-level analogue of `processChunks` acting on raw bytes. -/
def sFold {Msg : Type} (parse : List Nat → Option Msg)
    (start : List Msg × List Nat) (chunks : List (List Nat)) :
    List Msg × List Nat :=
  chunks.foldl
    (fun acc c =>
      let p := splitMsgs parse (acc.2 ++ c)
      (acc.1 ++ p.1, p.2))
    start

/-! ### The suffix after the last newline -/

/-- The bytes after the last newline of a byte list (the whole list when it
contains no newline). -/
def afterLastNL (l : List Nat) : List Nat :=
  (l.reverse.takeWhile (fun b => b != NLB)).reverse

/-! ### The proxy's inbound loop

`runDaemonProxy` drains the buffer after each stdin chunk with a loop that
calls `readMessage` until it returns `null` (no complete line) or throws
(a parse error logs and breaks out of the loop; the remaining buffer is
kept for the next chunk event).  Each parsed message is passed to
`transport.send`, whose rejection is caught and logged only. -/

/-- One `process.stdin.on('data')` drain loop: collect parsed messages in
order, stop at `nothing` (buffer unchanged by that step) or at the first
`parseError` (failing line already consumed). -/
def handleLoop {Msg : Type} (parse : List Nat → Option Msg) :
    Nat → ReadBuffer → List Msg × ReadBuffer
  | 0, rb => ([], rb)
  | fuel + 1, rb =>
    match rb.readMessage parse with
    | (ReadOutcome.nothing, _) => ([], rb)
    | (ReadOutcome.msg m, rb') =>
      let p := handleLoop parse fuel rb'
      (m :: p.1, p.2)
    | (ReadOutcome.parseError, rb') => ([], rb')

/-- The `'data'` event handler: append the chunk, then run the drain loop. -/
def onStdinData {Msg : Type} (parse : List Nat → Option Msg)
    (rb : ReadBuffer) (chunk : List Nat) : List Msg × ReadBuffer :=
  let rb1 := rb.append chunk
  handleLoop parse rb1.bytes.length rb1

/-- The inbound direction over a whole sequence of stdin chunks: the
ordered list of messages handed to `transport.send`, and the final buffer. -/
def sessionInbound {Msg : Type} (parse : List Nat → Option Msg)
    (chunks : List (List Nat)) : List Msg × ReadBuffer :=
  chunks.foldl
    (fun acc c =>
      let p := onStdinData parse acc.2 c
      (acc.1 ++ p.1, p.2))
    ([], ReadBuffer.empty)

/-- Inbound processing instrumented with the outcome of each
`transport.send` call (`sendOk` reports, per attempt index, whether the
send promise resolved).  The handler only logs a rejected send
(`.catch(error => logger.error(...))`), so the loop structure is the same;
the boolean is recorded next to each forwarded message. -/
def sessionInboundSend {Msg : Type} (parse : List Nat → Option Msg)
    (sendOk : Nat → Bool) (chunks : List (List Nat)) :
    List (Msg × Bool) × ReadBuffer :=
  chunks.foldl
    (fun acc c =>
      let p := onStdinData parse acc.2 c
      (acc.1 ++ (p.1.enumFrom acc.1.length).map (fun mi => (mi.2, sendOk mi.1)),
        p.2))
    ([], ReadBuffer.empty)

/-! ### The wire-shape validation (`JSONRPCMessageSchema`)

Modelled from the spec: `JSONRPCMessageSchema.parse` comes from the
`@modelcontextprotocol/sdk` dependency, which is not part of this
repository's sources.  The spec describes the accepted shape as a record
carrying `id` plus exactly one of `method` (optionally with `params`),
`result`, `error`, with anything else rejected at the parse boundary. -/

/-- A raw decoded JSON record, reduced to the presence of the fields the
wire-shape validation inspects. -/
structure RawRecord where
  hasId : Bool
  hasMethod : Bool
  hasParams : Bool
  hasResult : Bool
  hasError : Bool
deriving DecidableEq

/-- Modelled from the spec: the exactly-one-of wire shape — field `id`,
plus exactly one of `method` (+`params`), `result`, `error`; `params` is
only legal together with `method`. -/
def validShape (r : RawRecord) : Bool :=
  r.hasId &&
    ((r.hasMethod && !r.hasResult && !r.hasError) ||
      (!r.hasMethod && r.hasResult && !r.hasError) ||
      (!r.hasMethod && !r.hasResult && r.hasError)) &&
    (!r.hasParams || r.hasMethod)

/-- Modelled from the spec: the parse boundary of `readMessage` —
`JSONRPCMessageSchema.parse(JSON.parse(line))`.  `jsonDecode` abstracts
`JSON.parse` (returning `none` on a syntax error); a decoded record that
fails the shape validation is rejected (the schema parse throws). -/
def mcpParse (jsonDecode : List Nat → Option RawRecord) (l : List Nat) :
    Option RawRecord :=
  match jsonDecode l with
  | none => none
  | some r => if validShape r then some r else none

/-! ### Socket readiness validation

`validateSocketPermissions` is a pure function of the `fs.stat` result and
of `process.getuid` (which may be unavailable, embedded as `none`).  The
polling loop `waitForSocketReady` is embedded with an explicit
millisecond clock: `stats t` is the outcome of the `fs.stat` call
performed at time `t` (`none` embeds an ENOENT failure), and each
iteration advances the clock by the 200 ms sleep. -/

/-- The fields of an `fs.stat` result inspected by the validator. -/
structure FileStat where
  isSocket : Bool
  mode : Nat
  uid : Nat
deriving DecidableEq

/-- The three security faults of `validateSocketPermissions`, in source
order: not a socket, mode other than `0600`, owner mismatch. -/
inductive SecurityError where
  | notSocket : SecurityError
  | badMode : SecurityError
  | badOwner : SecurityError
deriving DecidableEq

/-- `validateSocketPermissions`: require a socket special file, mode bits
(`stat.mode & 0o777`) exactly `0o600`, and — only when `process.getuid`
is available — ownership by the current effective user. -/
def validateSocketPermissions (getuid : Option Nat) (st : FileStat) :
    Except SecurityError Unit :=
  if st.isSocket = false then Except.error SecurityError.notSocket
  else if st.mode &&& 0o777 ≠ 0o600 then Except.error SecurityError.badMode
  else
    match getuid with
    | none => Except.ok ()
    | some u =>
      if st.uid ≠ u then Except.error SecurityError.badOwner else Except.ok ()

def SOCKET_READY_TIMEOUT_MS : Nat := 3000
def SOCKET_READY_INTERVAL_MS : Nat := 200

/-- Failure of `waitForSocketReady`: a security violation rethrown from a
non-ENOENT attempt, or the deadline elapsing. -/
inductive WaitError where
  | securityViolation (e : SecurityError) : WaitError
  | timeout : WaitError
deriving DecidableEq

/-- The polling loop of `waitForSocketReady`: while `now < deadline`,
stat the path; ENOENT (`stats now = none`) is transient and retried after
the 200 ms interval; any validation failure on an existing path is
rethrown immediately; once the deadline elapses, a timeout error is
thrown. -/
def waitLoop (getuid : Option Nat) (stats : Nat → Option FileStat)
    (deadline now : Nat) : Except WaitError Unit :=
  if now < deadline then
    match stats now with
    | none => waitLoop getuid stats deadline (now + SOCKET_READY_INTERVAL_MS)
    | some st =>
      match validateSocketPermissions getuid st with
      | Except.ok _ => Except.ok ()
      | Except.error e => Except.error (WaitError.securityViolation e)
  else Except.error WaitError.timeout
termination_by deadline - now
decreasing_by
  simp [SOCKET_READY_INTERVAL_MS]
  omega

/-- `waitForSocketReady`: poll with deadline `Date.now() + 3000`. -/
def waitForSocketReady (getuid : Option Nat) (stats : Nat → Option FileStat)
    (now : Nat) : Except WaitError Unit :=
  waitLoop getuid stats (now + SOCKET_READY_TIMEOUT_MS) now

/-! ### The transport connect retry and proxy startup

`startTransport` retries `transport.start()` every 200 ms within a
2000 ms deadline, but only when the failure is `ECONNREFUSED`; every
other connect-time fault is rethrown immediately.  After the deadline,
the last error (necessarily a refusal) is thrown, or a generic timeout
when no attempt ever ran. -/

/-- A connect-time fault: a refused connection or any other fault,
tagged so distinct faults stay distinct. -/
inductive ConnErr where
  | refused : ConnErr
  | otherFault (tag : Nat) : ConnErr
deriving DecidableEq

/-- The outcome of one `transport.start()` attempt, as a function of the
time at which it runs. -/
inductive ConnectOutcome where
  | ok : ConnectOutcome
  | fail (e : ConnErr) : ConnectOutcome
deriving DecidableEq

inductive TransportError where
  | connFail (e : ConnErr) : TransportError
  | timedOut : TransportError
deriving DecidableEq

def TRANSPORT_READY_TIMEOUT_MS : Nat := 2000
def TRANSPORT_READY_INTERVAL_MS : Nat := 200

/-- `throw lastError || new Error('Timed out waiting for daemon
transport.')`: the error thrown after the connect deadline elapses. -/
def lastErrorResult (lastError : Option ConnErr) : Except TransportError Unit :=
  match lastError with
  | some e => Except.error (TransportError.connFail e)
  | none => Except.error TransportError.timedOut

/-- The retry loop body of `startTransport`, with the running
`lastError` accumulator. -/
def startTransportLoop (conn : Nat → ConnectOutcome) (deadline now : Nat)
    (lastError : Option ConnErr) : Except TransportError Unit :=
  if now < deadline then
    match conn now with
    | ConnectOutcome.ok => Except.ok ()
    | ConnectOutcome.fail ConnErr.refused =>
      startTransportLoop conn deadline (now + TRANSPORT_READY_INTERVAL_MS)
        (some ConnErr.refused)
    | ConnectOutcome.fail (ConnErr.otherFault t) =>
      Except.error (TransportError.connFail (ConnErr.otherFault t))
  else lastErrorResult lastError
termination_by deadline - now
decreasing_by
  simp [TRANSPORT_READY_INTERVAL_MS]
  omega

/-- `startTransport`: deadline `Date.now() + 2000`, `lastError` starts
`null`. -/
def startTransport (conn : Nat → ConnectOutcome) (now : Nat) :
    Except TransportError Unit :=
  startTransportLoop conn (now + TRANSPORT_READY_TIMEOUT_MS) now none

/-- Failure surfaced by `runDaemonProxy` during startup: the readiness
validator's failure rethrown unchanged, or a transport connect failure. -/
inductive ProxyError where
  | validation (e : WaitError) : ProxyError
  | transport (e : TransportError) : ProxyError
deriving DecidableEq

/-- The startup phase of `runDaemonProxy`: first `await
waitForSocketReady(socketPath)` (its failure logged and rethrown
unchanged), then `await startTransport()` starting from the clock value
`now1` reached when the validator finished. -/
def runDaemonProxyStartup (getuid : Option Nat)
    (stats : Nat → Option FileStat) (conn : Nat → ConnectOutcome)
    (now0 now1 : Nat) : Except ProxyError Unit :=
  match waitForSocketReady getuid stats now0 with
  | Except.error e => Except.error (ProxyError.validation e)
  | Except.ok _ =>
    match startTransport conn now1 with
    | Except.error e => Except.error (ProxyError.transport e)
    | Except.ok _ => Except.ok ()

/-! ### The daemon lifecycle fallback in `main`

`main` consults the external server manager: `start({cwd, allowExisting})`
returning a server id, and `get({serverId})` returning, possibly, an
object with an optional `childSocketPath` field.  The manager is an
oracle; the calls performed (with their arguments) are recorded as an
action trace so the protocol can be stated. -/

/-- The server-manager oracle: `startId b` is the server id returned by
`start` with `allowExisting = b`; `getPath id` is the `childSocketPath`
field read from `get` (`none` when the info object is missing, not an
object, or lacks the field). -/
structure ServerManager where
  startId : Bool → Nat
  getPath : Nat → Option (List Nat)

/-- JavaScript truthiness of the discovered path: `if (!socketPath)`
treats both an absent field and an empty string as unusable. -/
def usablePath : Option (List Nat) → Bool
  | none => false
  | some s => !s.isEmpty

/-- One recorded call against the server manager. -/
inductive LifecycleAction where
  | start (allowExisting : Bool) : LifecycleAction
  | get (serverId : Nat) : LifecycleAction
  | stop (serverId : Nat) (force : Bool) : LifecycleAction
deriving DecidableEq

/-- The socket-discovery phase of `main`: a first `start(allowExisting :=
true)` / `get` round; if it yields no usable path, a forced stop of that
instance and exactly one clean retry with `allowExisting := false`; a
second failure raises the fatal error that `main`'s catch turns into
`process.exit(1)` (embedded as `Except.error`). -/
def mainSocketDiscovery (sm : ServerManager) :
    Except Unit (List Nat) × List LifecycleAction :=
  let id1 := sm.startId true
  let p1 := sm.getPath id1
  if usablePath p1 then
    (Except.ok (p1.getD []), [LifecycleAction.start true, LifecycleAction.get id1])
  else
    let id2 := sm.startId false
    let p2 := sm.getPath id2
    let trace := [LifecycleAction.start true, LifecycleAction.get id1,
      LifecycleAction.stop id1 true, LifecycleAction.start false,
      LifecycleAction.get id2]
    if usablePath p2 then (Except.ok (p2.getD []), trace)
    else (Except.error (), trace)

/-! ### The daemon socket listener startup

`startMcpDaemon` reads the socket path from the environment, creates the
parent directory, unlinks a pre-existing entry only when it is itself a
socket, binds and listens, and only then restricts the socket file to
mode `0600`.  The filesystem is embedded as the entry (if any) at the
socket path plus the parent-directory flag; binding follows Unix
`bind(2)` semantics on an occupied path (modelled from the spec's
"fatal pre-existing conflict": `listen` rejects with `EADDRINUSE` when
the path already exists, so the promise around `server.listen`
rejects and startup fails). -/

inductive EntryType where
  | socketFile : EntryType
  | regularFile : EntryType
  | directoryFile : EntryType
deriving DecidableEq

/-- The filesystem state around the daemon's socket path. -/
structure DaemonFs where
  parentExists : Bool
  entry : Option EntryType
  entryMode : Nat
deriving DecidableEq

/-- The externally visible steps of the daemon startup, in order. -/
inductive DaemonOp where
  | mkdirParent : DaemonOp
  | unlinkStale : DaemonOp
  | bindListen : DaemonOp
  | chmodSocket (mode : Nat) : DaemonOp
deriving DecidableEq

inductive DaemonError where
  | socketPathMissing : DaemonError
  | bindConflict : DaemonError
deriving DecidableEq

/-- `startMcpDaemon`, as a function of whether `MCP_SHELL_MCP_SOCKET` is
set, the default mode the OS gives a freshly bound socket file, and the
initial filesystem state.  Returns the outcome, the final filesystem
state, and the ordered trace of performed steps. -/
def startMcpDaemon (socketPathSet : Bool) (defaultMode : Nat)
    (fs : DaemonFs) : Except DaemonError Unit × DaemonFs × List DaemonOp :=
  if socketPathSet = false then
    (Except.error DaemonError.socketPathMissing, fs, [])
  else
    let fs1 : DaemonFs := { fs with parentExists := true }
    let unlinkStep :=
      match fs1.entry with
      | some EntryType.socketFile =>
        ({ fs1 with entry := none }, [DaemonOp.unlinkStale])
      | _ => (fs1, [])
    let fs2 := unlinkStep.1
    match fs2.entry with
    | some _ =>
      (Except.error DaemonError.bindConflict, fs2,
        DaemonOp.mkdirParent :: unlinkStep.2)
    | none =>
      let fs3 : DaemonFs :=
        { fs2 with entry := some EntryType.socketFile, entryMode := defaultMode }
      let fs4 : DaemonFs := { fs3 with entryMode := 0o600 }
      (Except.ok (), fs4,
        DaemonOp.mkdirParent :: unlinkStep.2 ++
          [DaemonOp.bindListen, DaemonOp.chmodSocket 0o600])

/-! ### Serialization (`serializeMessage`)

Modelled from the spec: `JSON.stringify` is supplied by the JavaScript
runtime, not by this repository.  Per the wire-format section, a message
is serialized as one compact JSON record; the encoder below produces
that encoding (with the standard escaping of control characters inside
strings, so the serialized record itself contains no raw newline).
`serializeMessage` itself is from the source:
`${JSON.stringify(message)}\n`. -/

/-- A JSON value, the serializable payload of a protocol message. -/
inductive Json where
  | null : Json
  | boolean (b : Bool) : Json
  | number (n : Int) : Json
  | string (s : List Nat) : Json
  | array (items : List Json) : Json
  | object (fields : List (List Nat × Json)) : Json

/-- The byte of a hexadecimal digit (lowercase). -/
def hexDigit (n : Nat) : Nat := if n < 10 then 48 + n else 87 + n

/-- JSON string escaping of one byte: quote, backslash and control
characters are escaped, everything else passes through. -/
def escapeByte (c : Nat) : List Nat :=
  if c = 34 then [92, 34]
  else if c = 92 then [92, 92]
  else if c = 8 then [92, 98]
  else if c = 9 then [92, 116]
  else if c = 10 then [92, 110]
  else if c = 12 then [92, 102]
  else if c = 13 then [92, 114]
  else if c < 32 then [92, 117, 48, 48, hexDigit (c / 16), hexDigit (c % 16)]
  else [c]

/-- A JSON string literal: quoted, with every byte escaped as needed. -/
def encodeString (s : List Nat) : List Nat :=
  34 :: s.foldr (fun c acc => escapeByte c ++ acc) [34]

/-- Decimal digits of a natural number, most significant first. -/
def natToDigits (n : Nat) : List Nat :=
  if h : n < 10 then [48 + n] else natToDigits (n / 10) ++ [48 + n % 10]
termination_by n
decreasing_by
  omega

/-- Decimal encoding of an integer. -/
def encodeInt (i : Int) : List Nat :=
  if i < 0 then 45 :: natToDigits i.natAbs else natToDigits i.natAbs

mutual

/-- Compact JSON encoding of a value (no added whitespace), as
`JSON.stringify` produces. -/
def encodeJson : Json → List Nat
  | Json.null => [110, 117, 108, 108]
  | Json.boolean true => [116, 114, 117, 101]
  | Json.boolean false => [102, 97, 108, 115, 101]
  | Json.number n => encodeInt n
  | Json.string s => encodeString s
  | Json.array items => 91 :: encodeItems items ++ [93]
  | Json.object fields => 123 :: encodeFields fields ++ [125]

/-- Comma-separated encoding of array items. -/
def encodeItems : List Json → List Nat
  | [] => []
  | [v] => encodeJson v
  | v :: w :: rest => encodeJson v ++ 44 :: encodeItems (w :: rest)

/-- Comma-separated encoding of object members (`"key":value`). -/
def encodeFields : List (List Nat × Json) → List Nat
  | [] => []
  | [kv] => encodeString kv.1 ++ 58 :: encodeJson kv.2
  | kv :: kw :: rest =>
    encodeString kv.1 ++ 58 :: encodeJson kv.2 ++ 44 :: encodeFields (kw :: rest)

end

/-- `serializeMessage(message)`: the JSON encoding followed by one
newline. -/
def serializeMessage (m : Json) : List Nat := encodeJson m ++ [NLB]

/-- A byte is safe when it is neither a raw newline nor a raw carriage
return. -/
def safeByte (b : Nat) : Prop := b ≠ NLB ∧ b ≠ CRB

/-! ### Basic facts about `firstNL` -/

theorem firstNL_eq_none_iff (l : List Nat) : firstNL l = none ↔ NLB ∉ l := by
  induction l with
  | nil => simp [firstNL]
  | cons b bs ih =>
    by_cases hb : b = NLB
    · subst hb; simp [firstNL]
    · simp [firstNL, hb, Option.map_eq_none', ih, Ne.symm hb]

theorem firstNL_lt_length {l : List Nat} {i : Nat} (h : firstNL l = some i) :
    i < l.length := by
  induction l generalizing i with
  | nil => simp [firstNL] at h
  | cons b bs ih =>
    by_cases hb : b = NLB
    · subst hb; simp [firstNL] at h; subst h; simp
    · simp [firstNL, hb] at h
      obtain ⟨j, hj, rfl⟩ := h
      have := ih hj
      simp; omega

theorem firstNL_get {l : List Nat} {i : Nat} (h : firstNL l = some i) :
    l.take i ++ NLB :: l.drop (i + 1) = l := by
  induction l generalizing i with
  | nil => simp [firstNL] at h
  | cons b bs ih =>
    by_cases hb : b = NLB
    · subst hb
      simp [firstNL] at h
      subst h; simp
    · simp [firstNL, hb] at h
      obtain ⟨j, hj, rfl⟩ := h
      simpa using ih hj

theorem firstNL_not_mem_take {l : List Nat} {i : Nat} (h : firstNL l = some i) :
    NLB ∉ l.take i := by
  induction l generalizing i with
  | nil => simp [firstNL] at h
  | cons b bs ih =>
    by_cases hb : b = NLB
    · subst hb; simp [firstNL] at h; subst h; simp
    · simp [firstNL, hb] at h
      obtain ⟨j, hj, rfl⟩ := h
      simp [List.take_succ_cons, hb]
      exact ⟨fun he => hb he.symm, ih hj⟩

theorem firstNL_append_left {l : List Nat} {i : Nat} (h : firstNL l = some i)
    (c : List Nat) : firstNL (l ++ c) = some i := by
  induction l generalizing i with
  | nil => simp [firstNL] at h
  | cons b bs ih =>
    by_cases hb : b = NLB
    · subst hb; simp [firstNL] at h ⊢; omega
    · simp [firstNL, hb] at h ⊢
      obtain ⟨j, hj, rfl⟩ := h
      exact ⟨j, ih hj, rfl⟩

theorem firstNL_leading (pre rest : List Nat) (hpre : NLB ∉ pre) :
    firstNL (pre ++ NLB :: rest) = some pre.length := by
  induction pre with
  | nil => simp [firstNL]
  | cons b bs ih =>
    simp at hpre
    simp [firstNL, Ne.symm hpre.1, ih hpre.2]

/-! ### `readMessage` step facts -/

theorem readMessage_nothing {Msg : Type} (rb : ReadBuffer)
    (parse : List Nat → Option Msg) (hnl : firstNL rb.bytes = none) :
    rb.readMessage parse = (ReadOutcome.nothing, rb) := by
  rcases rb with ⟨_ | b⟩
  · rfl
  · simp only [ReadBuffer.bytes, Option.getD] at hnl
    simp [ReadBuffer.readMessage, hnl]

theorem readMessage_step {Msg : Type} (b : List Nat)
    (parse : List Nat → Option Msg) {i : Nat} (hnl : firstNL b = some i) :
    (ReadBuffer.mk (some b)).readMessage parse =
      (match parse (stripCR (b.take i)) with
        | some m => (ReadOutcome.msg m, ⟨some (b.drop (i + 1))⟩)
        | none => (ReadOutcome.parseError, ⟨some (b.drop (i + 1))⟩)) := by
  simp [ReadBuffer.readMessage, hnl]

theorem splitMsgs_none {Msg : Type} (parse : List Nat → Option Msg)
    {l : List Nat} (h : firstNL l = none) : splitMsgs parse l = ([], l) := by
  rw [splitMsgs]
  split
  · rfl
  · rename_i j hj
    rw [h] at hj
    cases hj

theorem splitMsgs_some {Msg : Type} (parse : List Nat → Option Msg)
    {l : List Nat} {i : Nat} (h : firstNL l = some i) :
    splitMsgs parse l =
      (match parse (stripCR (l.take i)) with
        | some m =>
          (m :: (splitMsgs parse (l.drop (i + 1))).1,
            (splitMsgs parse (l.drop (i + 1))).2)
        | none => splitMsgs parse (l.drop (i + 1))) := by
  rw [splitMsgs]
  split
  · rename_i hn
    rw [h] at hn
    cases hn
  · rename_i j hj
    rw [h] at hj
    cases hj
    rfl

theorem drainWith_eq_splitMsgs {Msg : Type} (parse : List Nat → Option Msg) :
    ∀ fuel (rb : ReadBuffer), rb.bytes.length ≤ fuel →
      (drainWith parse fuel rb).1 = (splitMsgs parse rb.bytes).1 ∧
      (drainWith parse fuel rb).2.bytes = (splitMsgs parse rb.bytes).2 := by
  intro fuel
  induction fuel with
  | zero =>
    intro rb hle
    have hb : rb.bytes = [] := List.length_eq_zero.mp (Nat.le_zero.mp hle)
    have hnl : firstNL rb.bytes = none := by rw [hb]; rfl
    rw [splitMsgs_none parse hnl]
    simp [drainWith, hb]
  | succ fuel ih =>
    intro rb hle
    obtain ⟨_ | b⟩ := rb
    · rw [splitMsgs_none parse (by rfl)]
      simp [drainWith, ReadBuffer.readMessage, ReadBuffer.bytes]
    · have hbb : (ReadBuffer.mk (some b)).bytes = b := rfl
      rw [hbb] at hle ⊢
      match hnl : firstNL b with
      | none =>
        rw [splitMsgs_none parse hnl]
        simp [drainWith, ReadBuffer.readMessage, hnl, hbb]
      | some i =>
        have hlt := firstNL_lt_length hnl
        have hdb : (ReadBuffer.mk (some (b.drop (i + 1)))).bytes
            = b.drop (i + 1) := rfl
        have ihr := ih ⟨some (b.drop (i + 1))⟩
          (by rw [hdb]; simp only [List.length_drop]; omega)
        rw [hdb] at ihr
        rw [splitMsgs_some parse hnl]
        match hp : parse (stripCR (b.take i)) with
        | some m =>
          simp only [drainWith, ReadBuffer.readMessage, hnl, hp]
          exact ⟨by simp [ihr.1], by simpa [hdb] using ihr.2⟩
        | none =>
          simp only [drainWith, ReadBuffer.readMessage, hnl, hp]
          exact ⟨by simpa [hdb] using ihr.1, by simpa [hdb] using ihr.2⟩

theorem drain_eq_splitMsgs {Msg : Type} (rb : ReadBuffer)
    (parse : List Nat → Option Msg) :
    (rb.drain parse).1 = (splitMsgs parse rb.bytes).1 ∧
    (rb.drain parse).2.bytes = (splitMsgs parse rb.bytes).2 :=
  drainWith_eq_splitMsgs parse rb.bytes.length rb (Nat.le_refl _)

theorem ReadBuffer.append_bytes (rb : ReadBuffer) (c : List Nat) :
    (rb.append c).bytes = rb.bytes ++ c := by
  rcases rb with ⟨_ | b⟩ <;> simp [ReadBuffer.append, ReadBuffer.bytes]

theorem foldl_append_bytes (chunks : List (List Nat)) :
    ∀ rb : ReadBuffer,
      (chunks.foldl ReadBuffer.append rb).bytes = rb.bytes ++ chunks.flatten := by
  induction chunks with
  | nil => intro rb; simp
  | cons c cs ih =>
    intro rb
    simp only [List.foldl_cons, List.flatten_cons]
    rw [ih, ReadBuffer.append_bytes, List.append_assoc]

/-- The leftover half of `splitMsgs` never contains a newline byte. -/
theorem splitMsgs_no_newline {Msg : Type} (parse : List Nat → Option Msg) :
    ∀ n (l : List Nat), l.length ≤ n → firstNL (splitMsgs parse l).2 = none := by
  intro n
  induction n with
  | zero =>
    intro l hle
    have hl : l = [] := List.length_eq_zero.mp (Nat.le_zero.mp hle)
    subst hl
    rw [splitMsgs_none parse (by rfl)]
    rfl
  | succ n ih =>
    intro l hle
    match hnl : firstNL l with
    | none => rw [splitMsgs_none parse hnl]; exact hnl
    | some i =>
      have hlt := firstNL_lt_length hnl
      have hrec := ih (l.drop (i + 1)) (by simp only [List.length_drop]; omega)
      rw [splitMsgs_some parse hnl]
      match parse (stripCR (l.take i)) with
      | some m => simpa using hrec
      | none => exact hrec

/-- Splitting a concatenation: first split the left part, then resume from
its leftover joined with the right part. -/
theorem splitMsgs_append {Msg : Type} (parse : List Nat → Option Msg) :
    ∀ n (a c : List Nat), a.length ≤ n →
      splitMsgs parse (a ++ c) =
        ((splitMsgs parse a).1 ++
            (splitMsgs parse ((splitMsgs parse a).2 ++ c)).1,
          (splitMsgs parse ((splitMsgs parse a).2 ++ c)).2) := by
  intro n
  induction n with
  | zero =>
    intro a c hle
    have ha : a = [] := List.length_eq_zero.mp (Nat.le_zero.mp hle)
    subst ha
    simp [splitMsgs_none parse (show firstNL ([] : List Nat) = none from rfl)]
  | succ n ih =>
    intro a c hle
    match hnl : firstNL a with
    | none =>
      rw [splitMsgs_none parse hnl]
      simp
    | some i =>
      have hlt := firstNL_lt_length hnl
      have hnl' : firstNL (a ++ c) = some i := firstNL_append_left hnl c
      have htake : (a ++ c).take i = a.take i :=
        List.take_append_of_le_length (Nat.le_of_lt hlt)
      have hdrop : (a ++ c).drop (i + 1) = a.drop (i + 1) ++ c :=
        List.drop_append_of_le_length hlt
      have ihr := ih (a.drop (i + 1)) c (by simp only [List.length_drop]; omega)
      rw [splitMsgs_some parse hnl', splitMsgs_some parse hnl, htake, hdrop]
      match parse (stripCR (a.take i)) with
      | some m => simp [ihr]
      | none => simp [ihr]

theorem sFold_join {Msg : Type} (parse : List Nat → Option Msg) :
    ∀ (chunks : List (List Nat)) (ms : List Msg) (r : List Nat),
      firstNL r = none →
      sFold parse (ms, r) chunks =
        (ms ++ (splitMsgs parse (r ++ chunks.flatten)).1,
          (splitMsgs parse (r ++ chunks.flatten)).2) := by
  intro chunks
  induction chunks with
  | nil =>
    intro ms r hr
    simp [sFold, splitMsgs_none parse hr]
  | cons c cs ih =>
    intro ms r hr
    have hstep : sFold parse (ms, r) (c :: cs) =
        sFold parse
          (ms ++ (splitMsgs parse (r ++ c)).1, (splitMsgs parse (r ++ c)).2)
          cs := rfl
    rw [hstep,
      ih _ _ (splitMsgs_no_newline parse (r ++ c).length (r ++ c) (Nat.le_refl _))]
    have happ := splitMsgs_append parse (r ++ c).length (r ++ c) cs.flatten
      (Nat.le_refl _)
    simp only [List.flatten_cons, ← List.append_assoc, happ]

theorem processChunks_eq_sFold {Msg : Type} (parse : List Nat → Option Msg) :
    ∀ (chunks : List (List Nat)) (ms : List Msg) (rb : ReadBuffer),
      (chunks.foldl
        (fun acc c =>
          let p := (acc.2.append c).drain parse
          (acc.1 ++ p.1, p.2))
        (ms, rb)).1 = (sFold parse (ms, rb.bytes) chunks).1 ∧
      (chunks.foldl
        (fun acc c =>
          let p := (acc.2.append c).drain parse
          (acc.1 ++ p.1, p.2))
        (ms, rb)).2.bytes = (sFold parse (ms, rb.bytes) chunks).2 := by
  intro chunks
  induction chunks with
  | nil => intro ms rb; exact ⟨rfl, rfl⟩
  | cons c cs ih =>
    intro ms rb
    have hd := drain_eq_splitMsgs (rb.append c) parse
    rw [ReadBuffer.append_bytes] at hd
    have hstep : (c :: cs).foldl
        (fun acc c =>
          let p := (acc.2.append c).drain parse
          (acc.1 ++ p.1, p.2))
        (ms, rb) =
      cs.foldl
        (fun acc c =>
          let p := (acc.2.append c).drain parse
          (acc.1 ++ p.1, p.2))
        (ms ++ ((rb.append c).drain parse).1, ((rb.append c).drain parse).2) :=
      rfl
    have hstep' : sFold parse (ms, rb.bytes) (c :: cs) =
        sFold parse
          (ms ++ (splitMsgs parse (rb.bytes ++ c)).1,
            (splitMsgs parse (rb.bytes ++ c)).2) cs := rfl
    rw [hstep, hstep', ← hd.1, ← hd.2]
    exact ih _ _

theorem takeWhile_append_stop {p : Nat → Bool} (a : List Nat) {x : Nat}
    (hx : p x = false) (z : List Nat) :
    (a ++ x :: z).takeWhile p = a.takeWhile p := by
  induction a with
  | nil => simp [List.takeWhile, hx]
  | cons b bs ih =>
    by_cases hb : p b
    · simp [List.takeWhile_cons, hb, ih]
    · simp at hb
      simp [List.takeWhile_cons, hb]

theorem afterLastNL_no_newline (l : List Nat) : NLB ∉ afterLastNL l := by
  intro hmem
  have := List.mem_takeWhile_imp (l := l.reverse) (p := fun b => b != NLB)
    (by simpa [afterLastNL] using hmem)
  simp at this

theorem afterLastNL_of_no_newline {l : List Nat} (h : NLB ∉ l) :
    afterLastNL l = l := by
  have : l.reverse.takeWhile (fun b => b != NLB) = l.reverse := by
    apply List.takeWhile_eq_self_iff.mpr
    intro x hx
    simp
    exact fun he => h (by simpa [he] using (List.mem_reverse.mp hx))
  simp [afterLastNL, this]

theorem afterLastNL_append_nl (x y : List Nat) :
    afterLastNL (x ++ NLB :: y) = afterLastNL y := by
  unfold afterLastNL
  rw [show (x ++ NLB :: y).reverse = y.reverse ++ NLB :: x.reverse by simp]
  rw [takeWhile_append_stop _ (by simp) _]

/-- The leftover of `splitMsgs` is exactly the suffix of the input after
its last newline. -/
theorem splitMsgs_leftover {Msg : Type} (parse : List Nat → Option Msg) :
    ∀ n (l : List Nat), l.length ≤ n →
      (splitMsgs parse l).2 = afterLastNL l := by
  intro n
  induction n with
  | zero =>
    intro l hle
    have hl : l = [] := List.length_eq_zero.mp (Nat.le_zero.mp hle)
    subst hl
    rw [splitMsgs_none parse (by rfl)]
    rfl
  | succ n ih =>
    intro l hle
    match hnl : firstNL l with
    | none =>
      rw [splitMsgs_none parse hnl]
      exact (afterLastNL_of_no_newline ((firstNL_eq_none_iff l).mp hnl)).symm
    | some i =>
      have hlt := firstNL_lt_length hnl
      have hrec := ih (l.drop (i + 1)) (by simp only [List.length_drop]; omega)
      have hsplit := firstNL_get hnl
      have hal : afterLastNL l = afterLastNL (l.drop (i + 1)) := by
        conv_lhs => rw [← hsplit]
        exact afterLastNL_append_nl _ _
      rw [splitMsgs_some parse hnl, hal]
      match parse (stripCR (l.take i)) with
      | some m => simpa using hrec
      | none => exact hrec

theorem mcpParse_valid {jsonDecode : List Nat → Option RawRecord}
    {l : List Nat} {r : RawRecord} (h : mcpParse jsonDecode l = some r) :
    validShape r = true := by
  unfold mcpParse at h
  match hj : jsonDecode l with
  | none => rw [hj] at h; cases h
  | some r' =>
    rw [hj] at h
    by_cases hv : validShape r'
    · simp [hv] at h
      subst h
      exact hv
    · simp [hv] at h

theorem waitLoop_enoent (getuid : Option Nat) (stats : Nat → Option FileStat)
    {deadline now : Nat} (hlt : now < deadline) (h : stats now = none) :
    waitLoop getuid stats deadline now =
      waitLoop getuid stats deadline (now + SOCKET_READY_INTERVAL_MS) := by
  rw [waitLoop]
  simp [hlt, h]

theorem waitLoop_security (getuid : Option Nat) (stats : Nat → Option FileStat)
    {deadline now : Nat} {st : FileStat} {e : SecurityError}
    (hlt : now < deadline) (h : stats now = some st)
    (hv : validateSocketPermissions getuid st = Except.error e) :
    waitLoop getuid stats deadline now =
      Except.error (WaitError.securityViolation e) := by
  rw [waitLoop]
  simp [hlt, h, hv]

theorem waitLoop_ok (getuid : Option Nat) (stats : Nat → Option FileStat)
    {deadline now : Nat} {st : FileStat}
    (hlt : now < deadline) (h : stats now = some st)
    (hv : validateSocketPermissions getuid st = Except.ok ()) :
    waitLoop getuid stats deadline now = Except.ok () := by
  rw [waitLoop]
  simp [hlt, h, hv]

theorem waitLoop_deadline (getuid : Option Nat) (stats : Nat → Option FileStat)
    {deadline now : Nat} (hge : ¬ now < deadline) :
    waitLoop getuid stats deadline now = Except.error WaitError.timeout := by
  rw [waitLoop]
  simp [hge]

theorem waitLoop_all_enoent (getuid : Option Nat)
    (stats : Nat → Option FileStat) (hall : ∀ t, stats t = none) :
    ∀ fuel deadline now, deadline - now ≤ fuel →
      waitLoop getuid stats deadline now =
        Except.error WaitError.timeout := by
  intro fuel
  induction fuel with
  | zero =>
    intro deadline now hle
    exact waitLoop_deadline getuid stats (by omega)
  | succ fuel ih =>
    intro deadline now hle
    by_cases hlt : now < deadline
    · rw [waitLoop_enoent getuid stats hlt (hall now)]
      exact ih deadline _ (by simp [SOCKET_READY_INTERVAL_MS]; omega)
    · exact waitLoop_deadline getuid stats hlt

theorem hexDigit_ge (n : Nat) : 48 ≤ hexDigit n := by
  unfold hexDigit
  split <;> omega

theorem escapeByte_safe (c : Nat) : ∀ b ∈ escapeByte c, safeByte b := by
  intro b hb
  simp only [safeByte, NLB, CRB]
  simp only [escapeByte] at hb
  split_ifs at hb with h1 h2 h3 h4 h5 h6 h7 h8
  · simp at hb; omega
  · simp at hb; omega
  · simp at hb; omega
  · simp at hb; omega
  · simp at hb; omega
  · simp at hb; omega
  · simp at hb; omega
  · simp at hb
    have g1 := hexDigit_ge (c / 16)
    have g2 := hexDigit_ge (c % 16)
    rcases hb with h | h | h | h | h | h <;> omega
  · simp at hb
    omega

theorem natToDigits_range : ∀ fuel n, n ≤ fuel →
    ∀ b ∈ natToDigits n, 48 ≤ b ∧ b ≤ 57 := by
  intro fuel
  induction fuel with
  | zero =>
    intro n hn b hb
    have : n = 0 := by omega
    subst this
    rw [natToDigits] at hb
    simp at hb
    omega
  | succ fuel ih =>
    intro n hn b hb
    rw [natToDigits] at hb
    split_ifs at hb with h
    · simp at hb; omega
    · simp at hb
      rcases hb with hb | hb
      · exact ih (n / 10) (by omega) b hb
      · omega

theorem encodeInt_safe (i : Int) : ∀ b ∈ encodeInt i, safeByte b := by
  intro b hb
  unfold encodeInt at hb
  have hd : ∀ c ∈ natToDigits i.natAbs, safeByte c := by
    intro c hc
    have := natToDigits_range i.natAbs i.natAbs (Nat.le_refl _) c hc
    simp only [safeByte, NLB, CRB]
    omega
  split_ifs at hb
  · simp at hb
    rcases hb with hb | hb
    · simp only [safeByte, NLB, CRB]; omega
    · exact hd b hb
  · exact hd b hb

theorem encodeString_safe (s : List Nat) : ∀ b ∈ encodeString s, safeByte b := by
  unfold encodeString
  intro b hb
  simp at hb
  rcases hb with hb | hb
  · simp only [safeByte, NLB, CRB]; omega
  · induction s with
    | nil =>
      simp at hb
      simp only [safeByte, NLB, CRB]; omega
    | cons c cs ih =>
      simp at hb
      rcases hb with hb | hb
      · exact escapeByte_safe c b hb
      · exact ih hb

theorem encode_safe_aux : ∀ fuel : Nat,
    (∀ v : Json, sizeOf v ≤ fuel → ∀ b ∈ encodeJson v, safeByte b) ∧
    (∀ l : List Json, sizeOf l ≤ fuel → ∀ b ∈ encodeItems l, safeByte b) ∧
    (∀ fl : List (List Nat × Json), sizeOf fl ≤ fuel →
      ∀ b ∈ encodeFields fl, safeByte b) := by
  intro fuel
  induction fuel with
  | zero =>
    refine ⟨fun v hv => ?_, fun l hl => ?_, fun fl hfl => ?_⟩
    · cases v <;> simp at hv
    · cases l <;> simp at hl
    · cases fl <;> simp at hfl
  | succ fuel ih =>
    obtain ⟨ihv, ihl, ihf⟩ := ih
    refine ⟨fun v hv b hb => ?_, fun l hl b hb => ?_, fun fl hfl b hb => ?_⟩
    · match v with
      | Json.null =>
        simp [encodeJson] at hb
        simp only [safeByte, NLB, CRB]
        rcases hb with h | h | h | h <;> omega
      | Json.boolean bb =>
        cases bb <;> simp [encodeJson] at hb <;>
          · simp only [safeByte, NLB, CRB]
            omega
      | Json.number n => exact encodeInt_safe n b (by simpa [encodeJson] using hb)
      | Json.string s => exact encodeString_safe s b (by simpa [encodeJson] using hb)
      | Json.array items =>
        simp [encodeJson] at hb
        simp at hv
        rcases hb with h | h | h
        · simp only [safeByte, NLB, CRB]; omega
        · exact ihl items (by omega) b h
        · simp only [safeByte, NLB, CRB]; omega
      | Json.object fields =>
        simp [encodeJson] at hb
        simp at hv
        rcases hb with h | h | h
        · simp only [safeByte, NLB, CRB]; omega
        · exact ihf fields (by omega) b h
        · simp only [safeByte, NLB, CRB]; omega
    · match l with
      | [] => simp [encodeItems] at hb
      | [v] =>
        simp at hl
        exact ihv v (by omega) b (by simpa [encodeItems] using hb)
      | v :: w :: rest =>
        simp [encodeItems] at hb
        simp at hl
        rcases hb with h | h | h
        · exact ihv v (by omega) b h
        · simp only [safeByte, NLB, CRB]; omega
        · exact ihl (w :: rest) (by simp; omega) b (by simpa [encodeItems] using h)
    · match fl with
      | [] => simp [encodeFields] at hb
      | [(k, v)] =>
        simp at hfl
        simp [encodeFields] at hb
        rcases hb with h | h | h
        · exact encodeString_safe k b h
        · simp only [safeByte, NLB, CRB]; omega
        · exact ihv v (by omega) b h
      | (k, v) :: kw :: rest =>
        simp [encodeFields] at hb
        simp at hfl
        rcases hb with h | h | h | h | h
        · exact encodeString_safe k b h
        · simp only [safeByte, NLB, CRB]; omega
        · exact ihv v (by omega) b h
        · simp only [safeByte, NLB, CRB]; omega
        · exact ihf (kw :: rest) (by simp; omega) b (by simpa [encodeFields] using h)

/-- No byte of the JSON encoding of a value is a raw newline or carriage
return: both are escaped inside string literals and cannot occur in any
structural position. -/
theorem encodeJson_safe (v : Json) : ∀ b ∈ encodeJson v, safeByte b :=
  (encode_safe_aux (sizeOf v)).1 v (Nat.le_refl _)

theorem encodeJson_no_newline (v : Json) : NLB ∉ encodeJson v :=
  fun h => (encodeJson_safe v NLB h).1 rfl

theorem encodeJson_no_cr (v : Json) : CRB ∉ encodeJson v :=
  fun h => (encodeJson_safe v CRB h).2 rfl

theorem stripCR_of_no_cr {l : List Nat} (h : CRB ∉ l) : stripCR l = l := by
  unfold stripCR
  split
  · rename_i hl
    obtain ⟨hne, heq⟩ := List.mem_getLast?_eq_getLast (Option.mem_def.mpr hl)
    exact absurd (heq ▸ List.getLast_mem hne) h
  · rfl

/-! ## The claims -/

/-- C1: for every byte sequence and every partition of it into chunks at
arbitrary byte offsets, appending the chunks in order to a fresh
`ReadBuffer` and repeatedly calling `readMessage` yields the identical
ordered sequence of parsed messages as appending the whole sequence in a
single chunk and draining it the same way — both when all chunks are
appended before draining and when the buffer is drained after every
append, and in both cases with the same leftover bytes. -/
theorem framer_chunking_invariance {Msg : Type} (parse : List Nat → Option Msg)
    (chunks : List (List Nat)) :
    ((chunks.foldl ReadBuffer.append ReadBuffer.empty).drain parse).1
        = ((ReadBuffer.empty.append chunks.flatten).drain parse).1
      ∧ (processChunks parse chunks).1
        = ((ReadBuffer.empty.append chunks.flatten).drain parse).1
      ∧ (processChunks parse chunks).2.bytes
        = ((ReadBuffer.empty.append chunks.flatten).drain parse).2.bytes := by
  have hEb : ReadBuffer.empty.bytes = [] := rfl
  have hWb : (ReadBuffer.empty.append chunks.flatten).bytes = chunks.flatten := by
    rw [ReadBuffer.append_bytes, hEb, List.nil_append]
  have hW := drain_eq_splitMsgs (ReadBuffer.empty.append chunks.flatten) parse
  rw [hWb] at hW
  have hF := drain_eq_splitMsgs (chunks.foldl ReadBuffer.append ReadBuffer.empty)
    parse
  rw [foldl_append_bytes chunks ReadBuffer.empty, hEb, List.nil_append] at hF
  have hP := processChunks_eq_sFold parse chunks [] ReadBuffer.empty
  rw [hEb] at hP
  have hS := sFold_join parse chunks [] [] (by rfl)
  simp only [List.nil_append] at hS
  refine ⟨?_, ?_, ?_⟩
  · rw [hF.1, hW.1]
  · calc (processChunks parse chunks).1
        = (sFold parse ([], []) chunks).1 := hP.1
      _ = (splitMsgs parse chunks.flatten).1 := by rw [hS]
      _ = ((ReadBuffer.empty.append chunks.flatten).drain parse).1 := hW.1.symm
  · calc (processChunks parse chunks).2.bytes
        = (sFold parse ([], []) chunks).2 := hP.2
      _ = (splitMsgs parse chunks.flatten).2 := by rw [hS]
      _ = ((ReadBuffer.empty.append chunks.flatten).drain parse).2.bytes :=
        hW.2.symm

theorem readMessage_msg_parse {Msg : Type} {rb : ReadBuffer}
    {parse : List Nat → Option Msg} {m : Msg} {rb' : ReadBuffer}
    (h : rb.readMessage parse = (ReadOutcome.msg m, rb')) :
    ∃ l, parse l = some m := by
  rcases rb with ⟨_ | b⟩
  · simp [ReadBuffer.readMessage] at h
  · match hnl : firstNL b with
    | none =>
      rw [readMessage_nothing ⟨some b⟩ parse hnl] at h
      simp at h
    | some i =>
      rw [readMessage_step b parse hnl] at h
      match hp : parse (stripCR (b.take i)) with
      | some m' =>
        rw [hp] at h
        simp at h
        exact ⟨stripCR (b.take i), by rw [hp, h.1]⟩
      | none => rw [hp] at h; simp at h

theorem handleLoop_forward_parsed {Msg : Type} {parse : List Nat → Option Msg}
    (P : Msg → Prop) (hP : ∀ l m, parse l = some m → P m) :
    ∀ fuel (rb : ReadBuffer), ∀ m ∈ (handleLoop parse fuel rb).1, P m := by
  intro fuel
  induction fuel with
  | zero => intro rb m hm; simp [handleLoop] at hm
  | succ fuel ih =>
    intro rb m hm
    unfold handleLoop at hm
    match hr : rb.readMessage parse with
    | (ReadOutcome.nothing, rb') => rw [hr] at hm; simp at hm
    | (ReadOutcome.msg m', rb') =>
      rw [hr] at hm
      simp at hm
      rcases hm with hm | hm
      · obtain ⟨l, hl⟩ := readMessage_msg_parse hr
        exact hm ▸ hP l m' hl
      · exact ih rb' m hm
    | (ReadOutcome.parseError, rb') => rw [hr] at hm; simp at hm

theorem sessionInbound_forward_parsed {Msg : Type}
    {parse : List Nat → Option Msg} (P : Msg → Prop)
    (hP : ∀ l m, parse l = some m → P m) :
    ∀ (chunks : List (List Nat)) (ms : List Msg) (rb : ReadBuffer),
      (∀ m ∈ ms, P m) →
      ∀ m ∈ (chunks.foldl
        (fun acc c =>
          let p := onStdinData parse acc.2 c
          (acc.1 ++ p.1, p.2)) (ms, rb)).1, P m := by
  intro chunks
  induction chunks with
  | nil => intro ms rb hms m hm; exact hms m hm
  | cons c cs ih =>
    intro ms rb hms m hm
    refine ih _ _ ?_ m hm
    intro m' hm'
    rcases List.mem_append.mp hm' with h | h
    · exact hms m' h
    · exact handleLoop_forward_parsed P hP _ _ m' h

/-- C2: every message the proxy's stdin loop reads from the wire has been
validated against the exactly-one-of shape (`id`, plus exactly one of
`method`(+`params`), `result`, `error`) before being handed to
`transport.send`; a decoded record that does not satisfy that shape —
including an ambiguous record carrying more than one of the three
payload fields — is rejected at the parse boundary (`mcpParse` returns
none, i.e. the schema parse throws) and never appears in the forwarded
sequence. -/
theorem wire_shape_validation (jsonDecode : List Nat → Option RawRecord)
    (chunks : List (List Nat)) :
    (∀ r ∈ (sessionInbound (mcpParse jsonDecode) chunks).1,
        validShape r = true)
      ∧ ∀ l r, jsonDecode l = some r → validShape r = false →
          mcpParse jsonDecode l = none := by
  constructor
  · intro r hr
    exact sessionInbound_forward_parsed (fun r => validShape r = true)
      (fun l m hm => mcpParse_valid hm) chunks [] ReadBuffer.empty
      (by intro m hm; simp at hm) r hr
  · intro l r hl hv
    unfold mcpParse
    rw [hl]
    simp [hv]

/-- Witness for C2 at a concrete decode oracle: the chunk `"a\n"` decodes
to a well-shaped request record and is forwarded; the ambiguous record
behind `"b"` (both `method` and `result` present) is rejected by the
parse boundary. -/
theorem wire_shape_validation_witness :
    validShape (RawRecord.mk true true true false false) = true ∧
      mcpParse
        (fun l => if l = [98] then
            some (RawRecord.mk true true false true false)
          else none) [98] = none := by
  constructor
  · exact (wire_shape_validation
      (fun l => if l = [97] then
          some (RawRecord.mk true true true false false)
        else none) [[97, 10]]).1
      (RawRecord.mk true true true false false) (by decide)
  · exact (wire_shape_validation
      (fun l => if l = [98] then
          some (RawRecord.mk true true false true false)
        else none) []).2 [98] (RawRecord.mk true true false true false)
      (by decide) (by decide)

theorem readMessage_complete_record {Msg : Type} (parse : List Nat → Option Msg)
    (pre rest : List Nat) (hpre : NLB ∉ pre) :
    (ReadBuffer.mk (some (pre ++ NLB :: rest))).readMessage parse =
      (match parse (stripCR pre) with
        | some m => (ReadOutcome.msg m, ⟨some rest⟩)
        | none => (ReadOutcome.parseError, ⟨some rest⟩)) := by
  rw [readMessage_step _ parse (firstNL_leading pre rest hpre)]
  rw [List.take_left]
  rw [show (pre ++ NLB :: rest).drop (pre.length + 1) = rest by
    rw [List.drop_append 1]; rfl]

/-- C3: a complete record is exactly the bytes up to the next `\n` with
one optional trailing `\r` stripped; bytes with no newline yet are
retained verbatim by `readMessage`, and the leftover of the whole inbound
processing is exactly the suffix after the last newline of the delivered
bytes; when parsing a complete line fails, `readMessage` reports a parse
error while the bytes after the failing line stay in the buffer, so a
subsequent `readMessage` still returns the next record. -/
theorem framer_record_boundaries {Msg : Type} (parse : List Nat → Option Msg)
    (pre rest pre' rest' l : List Nat) (m' : Msg) (chunks : List (List Nat))
    (hpre : NLB ∉ pre) (hpre' : NLB ∉ pre') :
    (∀ m, parse (stripCR pre) = some m →
        (ReadBuffer.mk (some (pre ++ NLB :: rest))).readMessage parse
          = (ReadOutcome.msg m, ⟨some rest⟩))
      ∧ (parse (stripCR pre) = none →
        (ReadBuffer.mk (some (pre ++ NLB :: rest))).readMessage parse
          = (ReadOutcome.parseError, ⟨some rest⟩))
      ∧ stripCR (l ++ [CRB]) = l
      ∧ (CRB ∉ l → stripCR l = l)
      ∧ (firstNL l = none →
        (ReadBuffer.mk (some l)).readMessage parse
          = (ReadOutcome.nothing, ⟨some l⟩))
      ∧ (processChunks parse chunks).2.bytes = afterLastNL chunks.flatten
      ∧ (parse (stripCR pre) = none → parse (stripCR pre') = some m' →
        (((ReadBuffer.mk (some (pre ++ NLB :: (pre' ++ NLB :: rest')))).readMessage
            parse).2).readMessage parse
          = (ReadOutcome.msg m', ⟨some rest'⟩)) := by
  have hrec := readMessage_complete_record parse pre rest hpre
  have hrec2 := readMessage_complete_record parse pre
    (pre' ++ NLB :: rest') hpre
  have hrec3 := readMessage_complete_record parse pre' rest' hpre'
  refine ⟨?_, ?_, ?_, ?_, ?_, ?_, ?_⟩
  · intro m hm
    rw [hrec, hm]
  · intro hm
    rw [hrec, hm]
  · unfold stripCR
    rw [List.getLast?_concat]
    simp
  · exact fun h => stripCR_of_no_cr h
  · exact fun h => readMessage_nothing ⟨some l⟩ parse h
  · have hP := processChunks_eq_sFold parse chunks [] ReadBuffer.empty
    have hS := sFold_join parse chunks [] [] (by rfl)
    simp only [List.nil_append] at hS
    calc (processChunks parse chunks).2.bytes
        = (sFold parse ([], []) chunks).2 := hP.2
      _ = (splitMsgs parse chunks.flatten).2 := by rw [hS]
      _ = afterLastNL chunks.flatten :=
        splitMsgs_leftover parse chunks.flatten.length _ (Nat.le_refl _)
  · intro hfail hok
    rw [hrec2, hfail, hrec3, hok]

/-- Witness for C3 at concrete bytes: the line `"b"` fails to parse, the
buffer keeps the following bytes, and the next call returns the record
parsed from `"a"` with the partial tail `"c"` retained. -/
theorem framer_record_boundaries_witness :
    (((ReadBuffer.mk (some ([98] ++ NLB :: ([97] ++ NLB :: [99])))).readMessage
        (fun l => if l = [97] then some 0 else none)).2).readMessage
        (fun l => if l = [97] then some 0 else none)
      = (ReadOutcome.msg 0, ⟨some [99]⟩) := by
  have h := framer_record_boundaries
    (fun l => if l = [97] then some 0 else none)
    [98] [] [97] [99] [] 0 [] (by decide) (by decide)
  exact h.2.2.2.2.2.2 (by decide) (by decide)

/-- C4: each polling attempt of the readiness validator treats a missing
path (ENOENT) as transient and retries after the fixed 200 ms interval
while the 3000 ms deadline has not elapsed; an attempt that finds the path
but fails validation raises a SecurityViolation immediately — the result
is that error for every remaining deadline, so no retry ever happens — in
particular a regular file (not a socket) fails that way at once; and if
every attempt up to the deadline finds the path missing, the validator
fails with a timeout. -/
theorem socket_readiness_validator (getuid : Option Nat)
    (stats : Nat → Option FileStat) (deadline now : Nat) (st : FileStat)
    (e : SecurityError) :
    (now < deadline → stats now = none →
        waitLoop getuid stats deadline now
          = waitLoop getuid stats deadline (now + SOCKET_READY_INTERVAL_MS))
      ∧ (now < deadline → stats now = some st →
          validateSocketPermissions getuid st = Except.error e →
          waitLoop getuid stats deadline now
            = Except.error (WaitError.securityViolation e))
      ∧ (now < deadline → stats now = some st → st.isSocket = false →
          waitLoop getuid stats deadline now
            = Except.error (WaitError.securityViolation SecurityError.notSocket))
      ∧ ((∀ t, stats t = none) →
          waitForSocketReady getuid stats now
            = Except.error WaitError.timeout) := by
  refine ⟨?_, ?_, ?_, ?_⟩
  · intro hlt h
    exact waitLoop_enoent getuid stats hlt h
  · intro hlt h hv
    exact waitLoop_security getuid stats hlt h hv
  · intro hlt h hsock
    refine waitLoop_security getuid stats hlt h ?_
    unfold validateSocketPermissions
    rw [hsock]
    rfl
  · intro hall
    exact waitLoop_all_enoent getuid stats hall
      (now + SOCKET_READY_TIMEOUT_MS - now) _ _ (Nat.le_refl _)

/-- Witness for C4: a regular file at the path fails at once with a
SecurityViolation even with a huge remaining deadline; an always-missing
path times out; an ENOENT attempt retries 200 ms later. -/
theorem socket_readiness_validator_witness :
    waitLoop none (fun _ => some (FileStat.mk false 384 0)) 1000000 0
        = Except.error (WaitError.securityViolation SecurityError.notSocket)
      ∧ waitForSocketReady none (fun _ => none) 0
        = Except.error WaitError.timeout
      ∧ waitLoop none (fun t => if t = 0 then none else
            some (FileStat.mk true 384 0)) 3000 0
        = waitLoop none (fun t => if t = 0 then none else
            some (FileStat.mk true 384 0)) 3000 200 := by
  refine ⟨?_, ?_, ?_⟩
  · exact (socket_readiness_validator none
      (fun _ => some (FileStat.mk false 384 0)) 1000000 0
      (FileStat.mk false 384 0) SecurityError.notSocket).2.2.1
      (by decide) rfl rfl
  · exact (socket_readiness_validator none (fun _ => none) 0 0
      (FileStat.mk true 384 0) SecurityError.notSocket).2.2.2 (fun _ => rfl)
  · exact (socket_readiness_validator none
      (fun t => if t = 0 then none else some (FileStat.mk true 384 0)) 3000 0
      (FileStat.mk true 384 0) SecurityError.notSocket).1 (by decide) rfl

/-- C5: the proxy bridge runs the readiness validator to completion
before any connection attempt — a validator failure is propagated
unchanged and the startup outcome is then independent of the connect
oracle, so no connect is consulted; once the validator passes, the
connect loop retries after the fixed 200 ms interval within its deadline
exactly on connection-refused failures, and any other connect-time fault
propagates immediately whatever the remaining deadline. -/
theorem proxy_startup_sequence (getuid : Option Nat)
    (stats : Nat → Option FileStat) (conn conn' : Nat → ConnectOutcome)
    (now0 now1 deadline now : Nat) (le : Option ConnErr) (e : WaitError)
    (t : Nat) :
    (waitForSocketReady getuid stats now0 = Except.error e →
        runDaemonProxyStartup getuid stats conn now0 now1
            = Except.error (ProxyError.validation e)
          ∧ runDaemonProxyStartup getuid stats conn now0 now1
            = runDaemonProxyStartup getuid stats conn' now0 now1)
      ∧ (waitForSocketReady getuid stats now0 = Except.ok () →
          runDaemonProxyStartup getuid stats conn now0 now1
            = match startTransport conn now1 with
              | Except.error e' => Except.error (ProxyError.transport e')
              | Except.ok _ => Except.ok ())
      ∧ (now < deadline → conn now = ConnectOutcome.fail ConnErr.refused →
          startTransportLoop conn deadline now le
            = startTransportLoop conn deadline
                (now + TRANSPORT_READY_INTERVAL_MS) (some ConnErr.refused))
      ∧ (now < deadline →
          conn now = ConnectOutcome.fail (ConnErr.otherFault t) →
          startTransportLoop conn deadline now le
            = Except.error (TransportError.connFail (ConnErr.otherFault t))) := by
  refine ⟨?_, ?_, ?_, ?_⟩
  · intro hw
    unfold runDaemonProxyStartup
    rw [hw]
    exact ⟨rfl, rfl⟩
  · intro hw
    unfold runDaemonProxyStartup
    rw [hw]
  · intro hlt hc
    conv_lhs => rw [startTransportLoop]
    simp [hlt, hc]
  · intro hlt hc
    conv_lhs => rw [startTransportLoop]
    simp [hlt, hc]

/-- Witness for C5: with the socket missing for good, startup fails with
the validator's timeout, the connect oracle never mattering; a
non-refused connect fault is propagated immediately. -/
theorem proxy_startup_sequence_witness :
    runDaemonProxyStartup none (fun _ => none) (fun _ => ConnectOutcome.ok) 0 0
        = Except.error (ProxyError.validation WaitError.timeout)
      ∧ startTransportLoop
          (fun _ => ConnectOutcome.fail (ConnErr.otherFault 7)) 2000 0 none
        = Except.error (TransportError.connFail (ConnErr.otherFault 7)) := by
  have hto : waitForSocketReady none (fun _ => none) 0
      = Except.error WaitError.timeout :=
    waitLoop_all_enoent none (fun _ => none) (fun _ => rfl) 3000 3000 0
      (by decide)
  refine ⟨?_, ?_⟩
  · exact ((proxy_startup_sequence none (fun _ => none)
      (fun _ => ConnectOutcome.ok) (fun _ => ConnectOutcome.ok) 0 0 2000 0 none
      WaitError.timeout 7).1 hto).1
  · exact (proxy_startup_sequence none (fun _ => none)
      (fun _ => ConnectOutcome.fail (ConnErr.otherFault 7))
      (fun _ => ConnectOutcome.ok) 0 0 2000 0 none
      WaitError.timeout 7).2.2.2 (by decide) rfl

theorem sessionInboundSend_aux {Msg : Type} (parse : List Nat → Option Msg)
    (sendOk : Nat → Bool) :
    ∀ (chunks : List (List Nat)) (msA : List (Msg × Bool)) (msB : List Msg)
      (rb : ReadBuffer), msA.map Prod.fst = msB →
      ((chunks.foldl
          (fun acc c =>
            let p := onStdinData parse acc.2 c
            (acc.1 ++ (p.1.enumFrom acc.1.length).map
              (fun mi => (mi.2, sendOk mi.1)), p.2)) (msA, rb)).1.map Prod.fst
        = (chunks.foldl
          (fun acc c =>
            let p := onStdinData parse acc.2 c
            (acc.1 ++ p.1, p.2)) (msB, rb)).1)
      ∧ (chunks.foldl
          (fun acc c =>
            let p := onStdinData parse acc.2 c
            (acc.1 ++ (p.1.enumFrom acc.1.length).map
              (fun mi => (mi.2, sendOk mi.1)), p.2)) (msA, rb)).2
        = (chunks.foldl
          (fun acc c =>
            let p := onStdinData parse acc.2 c
            (acc.1 ++ p.1, p.2)) (msB, rb)).2 := by
  intro chunks
  induction chunks with
  | nil =>
    intro msA msB rb h
    exact ⟨h, rfl⟩
  | cons c cs ih =>
    intro msA msB rb h
    refine ih _ _ _ ?_
    rw [List.map_append, h, List.map_map]
    congr 1
    rw [show (Prod.fst ∘ fun mi : Nat × Msg => (mi.2, sendOk mi.1))
        = Prod.snd from rfl]
    exact List.enumFrom_map_snd _ _

theorem plainFold_accum {Msg : Type} (parse : List Nat → Option Msg) :
    ∀ (cs : List (List Nat)) (ms : List Msg) (rb : ReadBuffer),
      (cs.foldl
          (fun acc c =>
            let p := onStdinData parse acc.2 c
            (acc.1 ++ p.1, p.2)) (ms, rb)).1
        = ms ++ (cs.foldl
          (fun acc c =>
            let p := onStdinData parse acc.2 c
            (acc.1 ++ p.1, p.2)) ([], rb)).1
      ∧ (cs.foldl
          (fun acc c =>
            let p := onStdinData parse acc.2 c
            (acc.1 ++ p.1, p.2)) (ms, rb)).2
        = (cs.foldl
          (fun acc c =>
            let p := onStdinData parse acc.2 c
            (acc.1 ++ p.1, p.2)) ([], rb)).2 := by
  intro cs
  induction cs with
  | nil => intro ms rb; simp
  | cons c cs ih =>
    intro ms rb
    have h1 := ih (ms ++ (onStdinData parse rb c).1) (onStdinData parse rb c).2
    have h2 := ih (onStdinData parse rb c).1 (onStdinData parse rb c).2
    simp only [List.foldl_cons, List.nil_append]
    constructor
    · rw [h1.1, h2.1, List.append_assoc]
    · rw [h1.2, h2.2]

/-- C6: in the steady-state inbound direction, the failure of a single
`transport.send` is absorbed locally — the sequence of messages the loop
goes on to forward and the buffer evolution are identical whatever the
send outcomes are, for any two outcome oracles — and a parse failure only
ends the current chunk's drain loop: processing of all later stdin chunks
continues from the retained buffer, the session never terminating. -/
theorem inbound_faults_absorbed {Msg : Type} (parse : List Nat → Option Msg)
    (sendOk sendOk' : Nat → Bool) (cs1 cs2 : List (List Nat)) :
    ((sessionInboundSend parse sendOk cs1).1.map Prod.fst
        = (sessionInbound parse cs1).1
      ∧ (sessionInboundSend parse sendOk cs1).2 = (sessionInbound parse cs1).2)
      ∧ (sessionInboundSend parse sendOk cs1).1.map Prod.fst
        = (sessionInboundSend parse sendOk' cs1).1.map Prod.fst
      ∧ (sessionInbound parse (cs1 ++ cs2)).1
        = (sessionInbound parse cs1).1
          ++ (cs2.foldl
            (fun acc c =>
              let p := onStdinData parse acc.2 c
              (acc.1 ++ p.1, p.2)) ([], (sessionInbound parse cs1).2)).1
      ∧ (sessionInbound parse (cs1 ++ cs2)).2
        = (cs2.foldl
          (fun acc c =>
            let p := onStdinData parse acc.2 c
            (acc.1 ++ p.1, p.2)) ([], (sessionInbound parse cs1).2)).2 := by
  have haux := sessionInboundSend_aux parse sendOk cs1 [] [] ReadBuffer.empty rfl
  have haux' := sessionInboundSend_aux parse sendOk' cs1 [] [] ReadBuffer.empty rfl
  have hsplit : sessionInbound parse (cs1 ++ cs2)
      = cs2.foldl
        (fun acc c =>
          let p := onStdinData parse acc.2 c
          (acc.1 ++ p.1, p.2)) (sessionInbound parse cs1) := by
    unfold sessionInbound
    exact List.foldl_append _ _ _ _
  have hacc := plainFold_accum parse cs2 (sessionInbound parse cs1).1
    (sessionInbound parse cs1).2
  refine ⟨⟨haux.1, haux.2⟩, ?_, ?_, ?_⟩
  · exact haux.1.trans haux'.1.symm
  · rw [hsplit]
    exact hacc.1
  · rw [hsplit]
    exact hacc.2

/-- C7: when the first start/get round against the server manager yields
no usable child socket path, `main` force-stops that instance and retries
exactly once with a clean `allowExisting := false` start; if the retried
round also yields no path, the discovery is fatal (the raised error makes
`main` exit with code 1, embedded as the error outcome); and when the
first round yields a usable path no stop and no second start happen. -/
theorem lifecycle_retry_once (sm : ServerManager) :
    (usablePath (sm.getPath (sm.startId true)) = true →
        mainSocketDiscovery sm
          = (Except.ok ((sm.getPath (sm.startId true)).getD []),
              [LifecycleAction.start true, LifecycleAction.get (sm.startId true)])
        ∧ (∀ i f, LifecycleAction.stop i f ∉ (mainSocketDiscovery sm).2)
        ∧ LifecycleAction.start false ∉ (mainSocketDiscovery sm).2)
      ∧ (usablePath (sm.getPath (sm.startId true)) = false →
          usablePath (sm.getPath (sm.startId false)) = true →
          mainSocketDiscovery sm
            = (Except.ok ((sm.getPath (sm.startId false)).getD []),
                [LifecycleAction.start true, LifecycleAction.get (sm.startId true),
                  LifecycleAction.stop (sm.startId true) true,
                  LifecycleAction.start false,
                  LifecycleAction.get (sm.startId false)]))
      ∧ (usablePath (sm.getPath (sm.startId true)) = false →
          usablePath (sm.getPath (sm.startId false)) = false →
          mainSocketDiscovery sm
            = (Except.error (),
                [LifecycleAction.start true, LifecycleAction.get (sm.startId true),
                  LifecycleAction.stop (sm.startId true) true,
                  LifecycleAction.start false,
                  LifecycleAction.get (sm.startId false)])) := by
  refine ⟨?_, ?_, ?_⟩
  · intro h1
    have he : mainSocketDiscovery sm
        = (Except.ok ((sm.getPath (sm.startId true)).getD []),
            [LifecycleAction.start true,
              LifecycleAction.get (sm.startId true)]) := by
      unfold mainSocketDiscovery
      simp [h1]
    refine ⟨he, ?_, ?_⟩
    · intro i f
      rw [he]
      simp
    · rw [he]
      simp
  · intro h1 h2
    unfold mainSocketDiscovery
    simp [h1, h2]
  · intro h1 h2
    unfold mainSocketDiscovery
    simp [h1, h2]

/-- Witness for C7: a manager whose first round reports no path and whose
clean restart reports `"s"` makes discovery succeed after exactly the
stop/restart round. -/
theorem lifecycle_retry_once_witness :
    mainSocketDiscovery
        (ServerManager.mk (fun b => if b then 1 else 2)
          (fun i => if i = 1 then none else some [115]))
      = (Except.ok [115],
          [LifecycleAction.start true, LifecycleAction.get 1,
            LifecycleAction.stop 1 true, LifecycleAction.start false,
            LifecycleAction.get 2]) :=
  (lifecycle_retry_once
    (ServerManager.mk (fun b => if b then 1 else 2)
      (fun i => if i = 1 then none else some [115]))).2.1
    (by decide) (by decide)

/-- C8: on daemon listener startup the parent directory of the socket
path is created; a pre-existing entry is unlinked before binding exactly
when it is itself a socket; an entry of any other type makes the bind
fail fatally with the entry left untouched (no unlink, no overwrite); and
on every successful startup the listener binds and listens first and only
then restricts the socket file to mode `0600`, in that order in the step
trace. -/
theorem daemon_listener_startup (defaultMode : Nat) (fs : DaemonFs)
    (t : EntryType) :
    (fs.entry = some EntryType.socketFile →
        startMcpDaemon true defaultMode fs
          = (Except.ok (), DaemonFs.mk true (some EntryType.socketFile) 0o600,
              [DaemonOp.mkdirParent, DaemonOp.unlinkStale, DaemonOp.bindListen,
                DaemonOp.chmodSocket 0o600]))
      ∧ (fs.entry = none →
        startMcpDaemon true defaultMode fs
          = (Except.ok (), DaemonFs.mk true (some EntryType.socketFile) 0o600,
              [DaemonOp.mkdirParent, DaemonOp.bindListen,
                DaemonOp.chmodSocket 0o600]))
      ∧ (fs.entry = some t → t ≠ EntryType.socketFile →
        startMcpDaemon true defaultMode fs
          = (Except.error DaemonError.bindConflict,
              { fs with parentExists := true }, [DaemonOp.mkdirParent])) := by
  refine ⟨?_, ?_, ?_⟩
  · intro h
    unfold startMcpDaemon
    simp [h]
  · intro h
    unfold startMcpDaemon
    simp [h]
  · intro h ht
    unfold startMcpDaemon
    cases t with
    | socketFile => exact absurd rfl ht
    | regularFile => simp [h]
    | directoryFile => simp [h]

/-- Witness for C8: a regular file occupying the socket path makes the
startup fail with the bind conflict, the file left in place, with no
unlink step performed. -/
theorem daemon_listener_startup_witness :
    startMcpDaemon true 493 (DaemonFs.mk false (some EntryType.regularFile) 420)
      = (Except.error DaemonError.bindConflict,
          DaemonFs.mk true (some EntryType.regularFile) 420,
          [DaemonOp.mkdirParent]) :=
  (daemon_listener_startup 493
    (DaemonFs.mk false (some EntryType.regularFile) 420)
    EntryType.regularFile).2.2 rfl (by decide)

/-- C9: `serializeMessage(m)` is the JSON encoding of `m` followed by
exactly one trailing newline and contains no other raw newline byte; and
appending it to a fresh `ReadBuffer` and calling `readMessage` once
returns the message parsed back from that very encoding, leaving the
buffer empty of complete records (a further `readMessage` reports
nothing and keeps the empty bytes). -/
theorem serialize_roundtrip {Msg : Type} (v : Json)
    (parse : List Nat → Option Msg) (m : Msg)
    (hp : parse (encodeJson v) = some m) :
    serializeMessage v = encodeJson v ++ [NLB]
      ∧ (serializeMessage v).count NLB = 1
      ∧ (ReadBuffer.empty.append (serializeMessage v)).readMessage parse
        = (ReadOutcome.msg m, ⟨some []⟩)
      ∧ (ReadBuffer.mk (some [])).readMessage parse
        = (ReadOutcome.nothing, ⟨some []⟩) := by
  have hnn := encodeJson_no_newline v
  have hnc := encodeJson_no_cr v
  refine ⟨rfl, ?_, ?_, ?_⟩
  · unfold serializeMessage
    rw [List.count_append]
    rw [List.count_eq_zero.mpr hnn]
    rfl
  · have happ : ReadBuffer.empty.append (serializeMessage v)
        = ReadBuffer.mk (some (encodeJson v ++ NLB :: [])) := rfl
    rw [happ, readMessage_complete_record parse (encodeJson v) [] hnn,
      stripCR_of_no_cr hnc, hp]
  · exact readMessage_nothing ⟨some []⟩ parse (by rfl)

/-- Witness for C9 at the message `null` and a parse oracle recognizing
its encoding. -/
theorem serialize_roundtrip_witness :
    (ReadBuffer.empty.append (serializeMessage Json.null)).readMessage
        (fun l => if l = encodeJson Json.null then some 0 else none)
      = (ReadOutcome.msg 0, ⟨some []⟩) :=
  (serialize_roundtrip Json.null
    (fun l => if l = encodeJson Json.null then some 0 else none) 0
    (by simp)).2.2.1

/-- C10: the ownership comparison of the readiness check runs only when
`process.getuid` is available: with `getuid` unavailable a socket passing
the type and mode checks passes validation whatever its owner is, while
with `getuid` available any owner mismatch fails validation (and a
matching owner passes). -/
theorem ownership_check_getuid (st : FileStat) (u : Nat) :
    (st.isSocket = true → st.mode &&& 0o777 = 0o600 →
        validateSocketPermissions none st = Except.ok ())
      ∧ (st.isSocket = true → st.mode &&& 0o777 = 0o600 → st.uid ≠ u →
        validateSocketPermissions (some u) st
          = Except.error SecurityError.badOwner)
      ∧ (st.isSocket = true → st.mode &&& 0o777 = 0o600 → st.uid = u →
        validateSocketPermissions (some u) st = Except.ok ()) := by
  refine ⟨?_, ?_, ?_⟩
  · intro hs hm
    unfold validateSocketPermissions
    simp [hs, hm]
  · intro hs hm hu
    unfold validateSocketPermissions
    simp [hs, hm, hu]
  · intro hs hm hu
    unfold validateSocketPermissions
    simp [hs, hm, hu]

/-- Witness for C10: with `getuid` unavailable a 0600 socket owned by
uid 12345 passes; with the current uid 0 it fails on ownership. -/
theorem ownership_check_getuid_witness :
    validateSocketPermissions none (FileStat.mk true 384 12345)
        = Except.ok ()
      ∧ validateSocketPermissions (some 0) (FileStat.mk true 384 12345)
        = Except.error SecurityError.badOwner :=
  ⟨(ownership_check_getuid (FileStat.mk true 384 12345) 0).1 rfl (by decide),
    (ownership_check_getuid (FileStat.mk true 384 12345) 0).2.1 rfl (by decide)
      (by decide)⟩

end McpShell
